import Mathlib

/-!
# Verification of the mind-map assistant (`assistente.py`)

A shallow embedding, in Lean 4, of the algorithmic core of the repository
`assistente_escrita_criativa` (file `src/assistente.py`):

* the text wrapper used for node labels (`MindMapNode.wrap_text`, which calls
  Python's `textwrap.fill` with its default configuration);
* the JSON extractor `LLMWorker.extract_json_from_response` together with a
  model of Python's `json.loads`;
* the radial mind-map builder `MindMapVisualizer.visualize_mindmap` operating
  on a `MindMapScene` (`add_mindmap_node`, `add_connection`, `clear_mindmap`)
  and the node construction `MindMapNode.__init__` /
  `setup_node_properties` / `calculate_dimensions`.

Modelling conventions:

* Python strings are modelled as `List Char` (`LC`).
* Python floats are modelled as exact rationals `ℚ`; `math.cos`, `math.sin`
  and the transcendental factor `math.pi` are abstracted by passing the
  trigonometric functions as parameters `cosF sinF : ℚ → ℚ` whose argument is
  the angle measured in units of π (so the code's
  `angle = 2 * math.pi * i / num_categories` becomes the rational
  `2 * i / n`, and the angular span `math.pi / 2.5` becomes `2/5`).
  All layout claims are either purely about these rational angle multiples or
  hold for every choice of `cosF`/`sinF`, so nothing about the real trigonometric
  functions is assumed.
* Fallible Python operations (list indexing that can raise `IndexError`,
  `json.loads` that can raise `JSONDecodeError`) return `Option`.
-/

/-- Python strings are modelled as lists of characters. -/
abbrev LC := List Char

/-! ## The text wrapper: Python `textwrap.fill(text, width)` with default options

`MindMapNode.wrap_text` (line 69-71 of `assistente.py`) is
`textwrap.fill(text, width=max_chars_per_line)`.  `textwrap.fill` with default
options runs `TextWrapper(width=width).fill(text)`, i.e.
`_munge_whitespace`, `_split`, `_wrap_chunks` with
`expand_tabs=True`, `tabsize=8`, `replace_whitespace=True`,
`drop_whitespace=True`, `break_long_words=True`, `break_on_hyphens=True`,
empty indents and `max_lines=None`.  Each stage is embedded below.
-/

/-- The characters of Python's `string.whitespace` /
`textwrap._whitespace = '\t\n\x0b\x0c\r '`: the ASCII whitespace characters
replaced by `_munge_whitespace` and recognised by the `\s` chunks of
`textwrap.wordsep_re` on ASCII text.  (Non-ASCII Unicode whitespace, which
Python's `\s` also matches, does not occur in any input considered here.) -/
def pyWs (c : Char) : Bool :=
  c = ' ' || c = '\t' || c = '\n' || c = '\x0b' || c = '\x0c' || c = '\r'

/-- Python `str.expandtabs(8)`: replace each tab by spaces up to the next multiple of
8, tracking the current column, which `\n` and `\r` reset to 0. -/
def expandTabs : List Char → ℕ → List Char
  | [], _ => []
  | c :: rest, col =>
    if c = '\t' then
      let pad := 8 - col % 8
      List.replicate pad ' ' ++ expandTabs rest (col + pad)
    else if c = '\n' ∨ c = '\r' then
      c :: expandTabs rest 0
    else
      c :: expandTabs rest (col + 1)

/-- Python `TextWrapper._munge_whitespace` with the default options: expand tabs,
then turn each character of `_whitespace` into a single space. -/
def munge_whitespace (text : LC) : LC :=
  (expandTabs text 0).map (fun c => if pyWs c then ' ' else c)

/-- Python `TextWrapper._split` on munged text: break the text into maximal runs of
whitespace and non-whitespace characters.  (Python uses `wordsep_re`, whose
chunks on whitespace-munged text are exactly these runs, except that it
additionally sub-splits hyphenated compounds; every theorem below about line
lengths is proved for arbitrary chunk lists, so it is insensitive to that
finer sub-division, and no input considered here contains a hyphen.) -/
def splitRuns : List Char → List LC
  | [] => []
  | c :: rest =>
    match splitRuns rest with
    | [] => [[c]]
    | [] :: rs => [c] :: rs
    | (d :: r) :: rs =>
      if pyWs c = pyWs d then (c :: d :: r) :: rs else [c] :: (d :: r) :: rs

/-- Python `chunk.strip() == ''`: the chunk consists of whitespace only. -/
def isWsChunk (c : LC) : Bool := c.all pyWs

/-- The greedy inner loop of `TextWrapper._wrap_chunks`: move chunks onto the
current line as long as the accumulated length stays within `width`.
Returns the chunks taken, the resulting line length, and the rest. -/
def takeGreedy (width : ℕ) : ℕ → List LC → List LC × ℕ × List LC
  | curLen, [] => ([], curLen, [])
  | curLen, c :: cs =>
    if curLen + c.length ≤ width then
      let r := takeGreedy width (curLen + c.length) cs
      (c :: r.1, r.2.1, r.2.2)
    else ([], curLen, c :: cs)

/-- Python `str.rfind` of a character: index of its last occurrence. -/
def rfindChar (c : Char) (l : LC) : Option ℕ :=
  (l.reverse.findIdx? (· = c)).map (fun k => l.length - 1 - k)

/-- Python `TextWrapper._handle_long_word` with `break_long_words=True` and
`break_on_hyphens=True`: split the over-long chunk at the remaining space
(preferring a position just after the last hyphen that fits, when the part
before that hyphen contains a non-hyphen character).  Returns the part put on
the current line and the remainder pushed back onto the chunk list. -/
def handle_long_word (width curLen : ℕ) (chunk : LC) : LC × LC :=
  let spaceLeft := if width < 1 then 1 else width - curLen
  let endIdx :=
    if chunk.length > spaceLeft then
      match rfindChar '-' (chunk.take spaceLeft) with
      | some h =>
        if 0 < h ∧ (chunk.take h).any (· ≠ '-') then h + 1 else spaceLeft
      | none => spaceLeft
    else spaceLeft
  (chunk.take endIdx, chunk.drop endIdx)

/-- Python `if cur_line and cur_line[-1].strip() == '': del cur_line[-1]`. -/
def dropTrailingWsChunk (cur : List LC) : List LC :=
  match cur.getLast? with
  | some last => if isWsChunk last then cur.dropLast else cur
  | none => cur

/-- Concatenation `''.join(cur_line)`. -/
def joinChunks (cur : List LC) : LC := cur.foldr (· ++ ·) []

/-- The loop body of `TextWrapper._wrap_chunks` (defaults: empty indents,
`drop_whitespace=True`, `max_lines=None`) after the leading-whitespace drop:
greedily fill the current line, break an over-long next chunk with
`_handle_long_word`, drop a trailing whitespace chunk.  Returns the finished
`cur_line` (as a chunk list) and the remaining chunks. -/
def wrapStep (width : ℕ) (chunks : List LC) : List LC × List LC :=
  let g := takeGreedy width 0 chunks
  let p : List LC × List LC :=
    match g.2.2 with
    | c :: cs =>
      if c.length > width then
        let h := handle_long_word width g.2.1 c
        (g.1 ++ [h.1], h.2 :: cs)
      else (g.1, c :: cs)
    | [] => (g.1, [])
  (dropTrailingWsChunk p.1, p.2)

/-- The iteration of `_wrap_chunks`: each recursive call is one pass of
Python's `while chunks` loop, whose body is `wrapStep` preceded by the
leading-whitespace drop (guarded by `lines` being non-empty, tracked by
`hasLines`).  A line is emitted when the resulting `cur_line` is non-empty. -/
def wrapChunksAux (width : ℕ) : ℕ → Bool → List LC → List LC
  | 0, _, _ => []
  | fuel + 1, hasLines, chunks₀ =>
    let chunks :=
      match chunks₀ with
      | c :: cs => if hasLines && isWsChunk c then cs else chunks₀
      | [] => []
    match chunks with
    | [] => []
    | c :: cs =>
      let st := wrapStep width (c :: cs)
      match st.1 with
      | [] => wrapChunksAux width fuel hasLines st.2
      | _ :: _ => joinChunks st.1 :: wrapChunksAux width fuel true st.2

/-- Python `TextWrapper._wrap_chunks`, with fuel ample for the iteration count
(each iteration removes at least one chunk or one character). -/
def wrap_chunks (width : ℕ) (chunks : List LC) : List LC :=
  wrapChunksAux width ((chunks.map List.length).sum + chunks.length + 1) false chunks

/-- Python `textwrap.wrap(text, width)` with default options.  (Python raises
`ValueError` when `width ≤ 0`; the program only calls it with widths 15, 12
and 10, and every claim below restricts to positive widths, so the embedding
is left total.) -/
def textwrap_wrap (text : LC) (width : ℕ) : List LC :=
  wrap_chunks width (splitRuns (munge_whitespace text))

/-- Python `'\n'.join(lines)`. -/
def joinNL : List LC → LC
  | [] => []
  | [l] => l
  | l₁ :: l₂ :: ls => l₁ ++ '\n' :: joinNL (l₂ :: ls)

/-- Python `textwrap.fill(text, width)` = `'\n'.join(textwrap.wrap(text, width))`. -/
def textwrap_fill (text : LC) (width : ℕ) : LC :=
  joinNL (textwrap_wrap text width)

/-- The method `MindMapNode.wrap_text(text, max_chars_per_line)` (line 69-71):
`textwrap.fill(text, width=max_chars_per_line)`. -/
def wrap_text (text : LC) (max_chars_per_line : ℕ) : LC :=
  textwrap_fill text max_chars_per_line

/-- The whitespace-delimited words of a label: the non-whitespace chunks the
wrapper works with. -/
def wordsOf (text : LC) : List LC :=
  (splitRuns (munge_whitespace text)).filter (fun c => !isWsChunk c)

/-! ## Python `json.loads`

`extract_json_from_response` calls `json.loads` and treats
`json.JSONDecodeError` as failure.  The pure-Python decoder
(`json.decoder.JSONDecoder` with default hooks) is embedded: skip the JSON
whitespace `' '`, `'\t'`, `'\n'`, `'\r'`, parse one value, skip whitespace,
and require the end of the input; failure is `none`.  Numbers are kept as
their lexemes (no claim compares numeric values); the decoder's constants
`NaN`, `Infinity` and `-Infinity` are accepted as in Python.  `\uXXXX`
escapes are mapped to the corresponding code point (the combination of
surrogate pairs, irrelevant to every claim, is not modelled).
-/

/-- A parsed JSON value. -/
inductive JVal where
  | null : JVal
  | bool (b : Bool) : JVal
  | num (lexeme : LC) : JVal
  | str (s : LC) : JVal
  | arr (xs : List JVal) : JVal
  | obj (kvs : List (LC × JVal)) : JVal

/-- The whitespace skipped between JSON tokens
(`json.decoder.WHITESPACE_STR = ' \t\n\r'`). -/
def jsonWs (c : Char) : Bool := c = ' ' || c = '\t' || c = '\n' || c = '\r'

/-- Skip JSON whitespace. -/
def skipWs (s : LC) : LC := s.dropWhile jsonWs

/-- Does the first list start with the second one? -/
def startsWith : LC → LC → Bool
  | _, [] => true
  | [], _ :: _ => false
  | c :: cs, p :: ps => c = p && startsWith cs ps

/-- Value of a hexadecimal digit. -/
def hexVal (c : Char) : Option ℕ :=
  if '0' ≤ c ∧ c ≤ '9' then some (c.toNat - '0'.toNat)
  else if 'a' ≤ c ∧ c ≤ 'f' then some (c.toNat - 'a'.toNat + 10)
  else if 'A' ≤ c ∧ c ≤ 'F' then some (c.toNat - 'A'.toNat + 10)
  else none

/-- The single-character escapes of `json.decoder.BACKSLASH`. -/
def escChar (e : Char) : Option Char :=
  if e = '"' then some '"'
  else if e = '\\' then some '\\'
  else if e = '/' then some '/'
  else if e = 'b' then some '\x08'
  else if e = 'f' then some '\x0c'
  else if e = 'n' then some '\n'
  else if e = 'r' then some '\r'
  else if e = 't' then some '\t'
  else none

/-- Parse a JSON string body (`py_scanstring`, strict mode): the input starts
just after the opening quote; control characters below `0x20` are rejected,
escapes `\" \\ \/ \b \f \n \r \t \uXXXX` are decoded. -/
def parseStr : LC → Option (LC × LC)
  | [] => none
  | '"' :: rest => some ([], rest)
  | '\\' :: 'u' :: h₁ :: h₂ :: h₃ :: h₄ :: rest =>
    match hexVal h₁, hexVal h₂, hexVal h₃, hexVal h₄ with
    | some a, some b, some c, some d =>
      (parseStr rest).map (fun p => (Char.ofNat (((a * 16 + b) * 16 + c) * 16 + d) :: p.1, p.2))
    | _, _, _, _ => none
  | '\\' :: e :: rest =>
    if e = 'u' then none
    else
      match escChar e with
      | some ch => (parseStr rest).map (fun p => (ch :: p.1, p.2))
      | none => none
  | c :: rest =>
    if c.toNat < 0x20 then none
    else (parseStr rest).map (fun p => (c :: p.1, p.2))

/-- One or more decimal digits. -/
def takeDigits (s : LC) : LC × LC := (s.takeWhile Char.isDigit, s.dropWhile Char.isDigit)

/-- Python's `json` number regex
`(-?(?:0|[1-9]\d*))(\.\d+)?([eE][-+]?\d+)?`: returns the lexeme and the
rest, or `none` when the input does not start with a number. -/
def parseNum (s : LC) : Option (LC × LC) :=
  let (neg, s₁) := match s with
    | '-' :: r => (['-'], r)
    | _ => (([] : LC), s)
  match s₁ with
  | [] => none
  | c :: rest =>
    if c = '0' then
      let intPart := neg ++ ['0']
      let (frac, s₂) := match rest with
        | '.' :: r =>
          let d := takeDigits r
          if d.1 = [] then (([] : LC), rest) else ('.' :: d.1, d.2)
        | _ => (([] : LC), rest)
      let (ex, s₃) := match s₂ with
        | e :: r =>
          if e = 'e' ∨ e = 'E' then
            let (sgn, r₂) := match r with
              | '+' :: r' => (['+'], r')
              | '-' :: r' => (['-'], r')
              | _ => (([] : LC), r)
            let d := takeDigits r₂
            if d.1 = [] then (([] : LC), s₂) else (e :: sgn ++ d.1, d.2)
          else (([] : LC), s₂)
        | [] => (([] : LC), s₂)
      some (intPart ++ frac ++ ex, s₃)
    else if c.isDigit then
      let d := takeDigits (c :: rest)
      let intPart := neg ++ d.1
      let (frac, s₂) := match d.2 with
        | '.' :: r =>
          let d' := takeDigits r
          if d'.1 = [] then (([] : LC), d.2) else ('.' :: d'.1, d'.2)
        | _ => (([] : LC), d.2)
      let (ex, s₃) := match s₂ with
        | e :: r =>
          if e = 'e' ∨ e = 'E' then
            let (sgn, r₂) := match r with
              | '+' :: r' => (['+'], r')
              | '-' :: r' => (['-'], r')
              | _ => (([] : LC), r)
            let d' := takeDigits r₂
            if d'.1 = [] then (([] : LC), s₂) else (e :: sgn ++ d'.1, d'.2)
          else (([] : LC), s₂)
        | [] => (([] : LC), s₂)
      some (intPart ++ frac ++ ex, s₃)
    else none

mutual

/-- Parse one JSON value (`json.scanner.py_make_scanner`'s `_scan_once`).
The fuel decreases at every nested call; since every nested call first
consumes at least one input character, a fuel of `length + 1` is never
exhausted. -/
def parseVal : ℕ → LC → Option (JVal × LC)
  | 0, _ => none
  | fuel + 1, s =>
    match s with
    | [] => none
    | c :: rest =>
      if c = '"' then (parseStr rest).map (fun p => (JVal.str p.1, p.2))
      else if c = '\x7b' then parseMembers fuel (skipWs rest)
      else if c = '[' then parseElems fuel (skipWs rest)
      else if startsWith s "null".data then some (JVal.null, s.drop 4)
      else if startsWith s "true".data then some (JVal.bool true, s.drop 4)
      else if startsWith s "false".data then some (JVal.bool false, s.drop 5)
      else
        match parseNum s with
        | some (lex, r) => some (JVal.num lex, r)
        | none =>
          if startsWith s "NaN".data then some (JVal.num "NaN".data, s.drop 3)
          else if startsWith s "Infinity".data then
            some (JVal.num "Infinity".data, s.drop 8)
          else if startsWith s "-Infinity".data then
            some (JVal.num "-Infinity".data, s.drop 9)
          else none

/-- Parse the members of a JSON object, the input starting (whitespace
already skipped) just after `{` or after a comma. -/
def parseMembers : ℕ → LC → Option (JVal × LC)
  | 0, _ => none
  | fuel + 1, s =>
    match s with
    | '\x7d' :: rest => some (JVal.obj [], rest)
    | '"' :: rest =>
      (parseStr rest).bind (fun kp =>
        match skipWs kp.2 with
        | ':' :: r₂ =>
          (parseVal fuel (skipWs r₂)).bind (fun vp =>
            match skipWs vp.2 with
            | ',' :: r₃ =>
              (parseMembers fuel (skipWs r₃)).bind (fun op =>
                match op.1 with
                | JVal.obj kvs => some (JVal.obj ((kp.1, vp.1) :: kvs), op.2)
                | _ => none)
            | '\x7d' :: r₃ => some (JVal.obj [(kp.1, vp.1)], r₃)
            | _ => none)
        | _ => none)
    | _ => none

/-- Parse the elements of a JSON array, the input starting (whitespace
already skipped) just after `[` or after a comma. -/
def parseElems : ℕ → LC → Option (JVal × LC)
  | 0, _ => none
  | fuel + 1, s =>
    match s with
    | ']' :: rest => some (JVal.arr [], rest)
    | _ =>
      (parseVal fuel s).bind (fun vp =>
        match skipWs vp.2 with
        | ',' :: r₂ =>
          (parseElems fuel (skipWs r₂)).bind (fun ap =>
            match ap.1 with
            | JVal.arr xs => some (JVal.arr (vp.1 :: xs), ap.2)
            | _ => none)
        | ']' :: r₂ => some (JVal.arr [vp.1], r₂)
        | _ => none)

end

/-- Python `json.loads(s)`: skip leading whitespace, parse one value, skip trailing
whitespace, require the end of the input; `JSONDecodeError` is `none`. -/
def json_loads (s : LC) : Option JVal :=
  match parseVal (s.length + 1) (skipWs s) with
  | some (v, rest) => if skipWs rest = [] then some v else none
  | none => none

/-! ## `LLMWorker.extract_json_from_response` (lines 239-261)

```python
try:
    json_pattern = r'```json\s*(.*?)\s*```'
    match = re.search(json_pattern, response_text, re.DOTALL)
    if match:
        json_str = match.group(1)
    else:
        json_pattern = r'\{.*\}'
        match = re.search(json_pattern, response_text, re.DOTALL)
        if match:
            json_str = match.group(0)
        else:
            json_str = response_text
    return json.loads(json_str)
except json.JSONDecodeError:
    return None
```

The two regex searches are embedded directly.  With `re.DOTALL`, a match of
the first pattern exists exactly when an occurrence of the literal
` ```json ` is followed, somewhere later, by ` ``` `; the leftmost such match
starts at the first occurrence of ` ```json `, its closing fence is the next
following ` ``` `, and the lazy group with the two greedy `\s*` around it
yields the text between the fences stripped of surrounding whitespace.
A match of `\{.*\}` exists exactly when some `{` precedes some `}`; the
greedy leftmost match runs from the first `{` to the last `}`.
-/

/-- Index of the first occurrence of `pat` in the text (`re.search` position
of a literal pattern). -/
def findSub (pat : LC) : LC → Option ℕ
  | [] => if pat.isEmpty then some 0 else none
  | c :: rest =>
    if startsWith (c :: rest) pat then some 0
    else (findSub pat rest).map (· + 1)

/-- Characters matched by `\s` in Python's `re` on the inputs considered
here (the ASCII whitespace characters). -/
def reWs (c : Char) : Bool := pyWs c

/-- Strip `\s` characters from both ends (the effect of the greedy `\s*`
fringes around the lazy group). -/
def stripWs (s : LC) : LC :=
  ((s.dropWhile reWs).reverse.dropWhile reWs).reverse

/-- The group captured by `re.search(r'```json\s*(.*?)\s*```', t, re.DOTALL)`:
the text between the first ` ```json ` and the next following ` ``` `,
stripped of surrounding whitespace; `none` when the pattern does not match. -/
def fencedBlock (t : LC) : Option LC :=
  match findSub "```json".data t with
  | none => none
  | some i =>
    let after := t.drop (i + 7)
    match findSub "```".data after with
    | none => none
    | some j => some (stripWs (after.take j))

/-- The match of `re.search(r'\{.*\}', t, re.DOTALL)`: from the first `{` to
the last `}`, provided a `{` precedes a `}`. -/
def braceSpan (t : LC) : Option LC :=
  match t.findIdx? (· = '\x7b'), rfindChar '\x7d' t with
  | some i, some j => if i < j then some ((t.drop i).take (j - i + 1)) else none
  | _, _ => none

/-- The method `LLMWorker.extract_json_from_response` (lines 239-261): select the
candidate string — the fenced block's contents if a fenced block matches,
else the brace span if it matches, else the whole text — and run
`json.loads` on it once, mapping `JSONDecodeError` to `none`. -/
def extract_json_from_response (t : LC) : Option JVal :=
  match fencedBlock t with
  | some s => json_loads s
  | none =>
    match braceSpan t with
    | some b => json_loads b
    | none => json_loads t

/-! ## The mind map: `MindMapNode`, `MindMapScene`, `visualize_mindmap`

`MindMapNode.__init__` (lines 22-40) stores text, type and colour index,
fixes the 8-entry palette, and calls `setup_node_properties` (lines 42-67),
which wraps the text with a per-kind character budget, picks the base size,
colour and font, and calls `calculate_dimensions` (lines 73-85).
`self.colors[self.color_index]` raises `IndexError` when the index is out of
range, so node construction is `Option`-valued.

`MindMapScene` (lines 152-185) keeps an insertion-ordered dictionary
`nodes : node_id → MindMapNode` and a connection list; `add_mindmap_node`
assigns `nodes[node_id] = node` (overwriting in place on a repeated key, as a
Python dict does) and `add_connection` appends a line only when both
endpoints are present.

`MindMapVisualizer.visualize_mindmap` (lines 503-559) clears the scene, adds
the central node at the origin, and for each category `i` of `n` computes
`angle = 2π·i/n` (stored here as the rational `2·i/n` in units of π), places
the category at radius 300, places its leaves at radius 200 from the
category at angles given by `leafAngle`, and connects everything.  The final
`fitInView` call only affects the viewport, not the model, and is omitted.
-/

/-- Node kinds: `'central'`, `'category'`, anything else is a leaf. -/
inductive NodeType where
  | central : NodeType
  | category : NodeType
  | leaf : NodeType
deriving DecidableEq

/-- The palette (line 32):
`['#FF6B6B', '#4ECDC4', '#45B7D1', '#FFA07A', '#98D8C8', '#F7DC6F', '#BB8FCE', '#85C1E9']`. -/
def colors : List LC :=
  ["#FF6B6B".data, "#4ECDC4".data, "#45B7D1".data, "#FFA07A".data,
   "#98D8C8".data, "#F7DC6F".data, "#BB8FCE".data, "#85C1E9".data]

/-- A fully constructed `MindMapNode` (the attributes set by `__init__`,
`setup_node_properties` and `calculate_dimensions`, plus the position set by
`setPos`). -/
structure MindMapNode where
  text : LC
  node_type : NodeType
  color_index : ℕ
  wrapped_text : LC
  base_width : ℚ
  base_height : ℚ
  color : LC
  font_size : ℕ
  font_weight : Bool
  width : ℚ
  height : ℚ
  pos : ℚ × ℚ
deriving DecidableEq

instance : Inhabited MindMapNode :=
  ⟨⟨[], NodeType.central, 0, [], 0, 0, [], 0, false, 0, 0, (0, 0)⟩⟩

/-- Part of `calculate_dimensions` (lines 73-85): split the wrapped text on `'\n'`.
(Python's `split` on a string never returns an empty list, so the
`if lines else 0` guard is the plain maximum here.) -/
def splitOnNL : LC → List LC
  | [] => [[]]
  | c :: rest =>
    if c = '\n' then [] :: splitOnNL rest
    else
      match splitOnNL rest with
      | [] => [[c]]
      | l :: ls => (c :: l) :: ls

/-- The method `calculate_dimensions`: estimated box from the wrapped text, the font
size and the per-kind base size. -/
def calculate_dimensions (wrapped : LC) (font_size : ℕ) (bw bh : ℚ) : ℚ × ℚ :=
  let lines := splitOnNL wrapped
  let max_chars : ℕ := (lines.map List.length).foldr max 0
  let num_lines : ℕ := lines.length
  let text_width : ℚ := (max_chars : ℚ) * (font_size : ℚ) * 0.6
  let text_height : ℚ := (num_lines : ℚ) * (font_size : ℚ) * 1.2
  (max bw (text_width + 40), max bh (text_height + 30))

/-- The constructor `MindMapNode(text, node_type, color_index)` followed by
`setPos(position)`: the `'central'` branch uses a fixed colour; the
`'category'` and leaf branches index the palette with `color_index`, which
raises `IndexError` (`none`) when the index is at least 8. -/
def mkMindMapNode (text : LC) (ty : NodeType) (ci : ℕ) (pos : ℚ × ℚ) :
    Option MindMapNode :=
  match ty with
  | NodeType.central =>
    let w := wrap_text text 15
    let d := calculate_dimensions w 14 200 80
    some ⟨text, ty, ci, w, 200, 80, "#2C3E50".data, 14, true, d.1, d.2, pos⟩
  | NodeType.category =>
    (colors[ci]?).map (fun col =>
      let w := wrap_text text 12
      let d := calculate_dimensions w 11 160 60
      ⟨text, ty, ci, w, 160, 60, col, 11, true, d.1, d.2, pos⟩)
  | NodeType.leaf =>
    (colors[ci]?).map (fun col =>
      let w := wrap_text text 10
      let d := calculate_dimensions w 9 120 50
      ⟨text, ty, ci, w, 120, 50, col, 9, false, d.1, d.2, pos⟩)

/-- The class `MindMapScene`: the node dictionary (association list in insertion
order) and the connection list. -/
structure MindMapScene where
  nodes : List (LC × MindMapNode)
  connections : List (LC × LC)
deriving DecidableEq

/-- The assignment `self.nodes[node_id] = node`: Python-dict assignment — overwrite in place
when the key exists, append otherwise. -/
def dictInsert (d : List (LC × MindMapNode)) (k : LC) (v : MindMapNode) :
    List (LC × MindMapNode) :=
  if d.any (fun p => p.1 = k) then
    d.map (fun p => if p.1 = k then (k, v) else p)
  else d ++ [(k, v)]

/-- The method `add_mindmap_node(node_id, text, node_type, color_index, position)`
(lines 165-172). -/
def add_mindmap_node (s : MindMapScene) (node_id : LC) (text : LC)
    (ty : NodeType) (ci : ℕ) (pos : ℚ × ℚ) : Option MindMapScene :=
  (mkMindMapNode text ty ci pos).map
    (fun nd => { s with nodes := dictInsert s.nodes node_id nd })

/-- The method `add_connection(start_id, end_id)` (lines 174-179): only when both ids
are present. -/
def add_connection (s : MindMapScene) (a b : LC) : MindMapScene :=
  if s.nodes.any (fun p => p.1 = a) ∧ s.nodes.any (fun p => p.1 = b) then
    { s with connections := s.connections ++ [(a, b)] }
  else s

/-- The method `clear_mindmap` (lines 159-163): reset nodes and connections. -/
def clear_mindmap (_s : MindMapScene) : MindMapScene := ⟨[], []⟩

/-- A category's items: either a JSON list of labels or a scalar, carried
here as its `str()` representation (the code applies `str()` both in the
f-string key and in the node text). -/
inductive CatValue where
  | items (ls : List LC) : CatValue
  | scalar (s : LC) : CatValue
deriving DecidableEq

/-- Line 517, in units of π: `angle = 2 * math.pi * i / num_categories`. -/
def categoryAngle (n i : ℕ) : ℚ := 2 * (i : ℚ) / (n : ℚ)

/-- Lines 518-520: the category position
`(300·cos angle, 300·sin angle)`. -/
def categoryPos (cosF sinF : ℚ → ℚ) (n i : ℕ) : ℚ × ℚ :=
  (300 * cosF (categoryAngle n i), 300 * sinF (categoryAngle n i))

/-- Lines 536-539, in units of π: the angle of leaf `j` of `m`:
the category angle itself when `m = 1`, otherwise
`angle + angular_span * (j - (m-1)/2) / (m-1)` with
`angular_span = π/2.5`, i.e. `2/5` in units of π. -/
def leafAngle (angle : ℚ) (m j : ℕ) : ℚ :=
  if m = 1 then angle
  else angle + (2 / 5) * ((j : ℚ) - ((m : ℚ) - 1) / 2) / ((m : ℚ) - 1)

/-- Lines 546 and 554: `leaf_id = f"{category}_{item}"`. -/
def leafKey (category item : LC) : LC := category ++ '_' :: item

/-- The leaf loop of lines 535-550: `j` is the `enumerate` index, `(x, y)`
the category position, `angle` the category angle (in units of π), `m` the
number of leaves. -/
def addLeafList (cosF sinF : ℚ → ℚ) (cat : LC) (i : ℕ) (angle x y : ℚ)
    (m : ℕ) : MindMapScene → ℕ → List LC → Option MindMapScene
  | s, _, [] => some s
  | s, j, item :: rest =>
    let la := leafAngle angle m j
    let pos := (x + 200 * cosF la, y + 200 * sinF la)
    let key := leafKey cat item
    (add_mindmap_node s key item NodeType.leaf i pos).bind (fun s₁ =>
      addLeafList cosF sinF cat i angle x y m
        (add_connection s₁ cat key) (j + 1) rest)

/-- One iteration of the category loop (lines 516-556): place the category,
connect it to the central node, then add its leaves — the list branch
iterates with `leafAngle`; the scalar branch (lines 551-556) places the
single leaf at the category angle. -/
def addCategory (cosF sinF : ℚ → ℚ) (n : ℕ) (central : LC)
    (s : MindMapScene) (i : ℕ) (cat : LC) (v : CatValue) :
    Option MindMapScene :=
  let angle := categoryAngle n i
  let xy := categoryPos cosF sinF n i
  (add_mindmap_node s cat cat NodeType.category i xy).bind (fun s₁ =>
    let s₂ := add_connection s₁ central cat
    match v with
    | CatValue.items ls =>
      addLeafList cosF sinF cat i angle xy.1 xy.2 ls.length s₂ 0 ls
    | CatValue.scalar sc =>
      let pos := (xy.1 + 200 * cosF angle, xy.2 + 200 * sinF angle)
      let key := leafKey cat sc
      (add_mindmap_node s₂ key sc NodeType.leaf i pos).map (fun s₃ =>
        add_connection s₃ cat key))

/-- The `for i, category in enumerate(categories)` loop. -/
def addCategories (cosF sinF : ℚ → ℚ) (n : ℕ) (central : LC) :
    MindMapScene → ℕ → List (LC × CatValue) → Option MindMapScene
  | s, _, [] => some s
  | s, i, (cat, v) :: rest =>
    (addCategory cosF sinF n central s i cat v).bind (fun s₁ =>
      addCategories cosF sinF n central s₁ (i + 1) rest)

/-- The method `visualize_mindmap(data, central_node)` (lines 503-559): clear the scene,
add the central node at the origin, then run the category loop.  The scene
being mutated is passed explicitly (`prior`), so the in-place
`self.scene.clear_mindmap()` becomes a state transition. -/
def visualize_mindmap (cosF sinF : ℚ → ℚ) (prior : MindMapScene)
    (data : List (LC × CatValue)) (central : LC) : Option MindMapScene :=
  let s := clear_mindmap prior
  (add_mindmap_node s central central NodeType.central 0 (0, 0)).bind
    (fun s₁ => addCategories cosF sinF data.length central s₁ 0 data)

/-- Dictionary lookup in the scene's node table. -/
def findNode (s : MindMapScene) (k : LC) : Option MindMapNode :=
  (s.nodes.find? (fun p => p.1 = k)).map Prod.snd

/-! ## Normal form of the scene built by `visualize_mindmap`

To reason about the scene, the node insertions performed by the nested loops
of `visualize_mindmap` are described by pure entry lists: `leafEntries`,
`catEntries`, `allEntries` and `sceneEntries` compute, in insertion order,
exactly the `(node_id, MindMapNode)` pairs that the loops feed to
`add_mindmap_node`, and `insertAll` replays them through the dictionary
assignment.  The lemmas below prove that `visualize_mindmap` produces
precisely this normal form.
-/

/-- Replay a list of entries through the dictionary assignment. -/
def insertAll (d : List (LC × MindMapNode)) (es : List (LC × MindMapNode)) :
    List (LC × MindMapNode) :=
  es.foldl (fun d' p => dictInsert d' p.1 p.2) d

/-- The leaf entries produced by the loop of lines 535-550. -/
def leafEntries (cosF sinF : ℚ → ℚ) (cat : LC) (i : ℕ) (angle x y : ℚ)
    (m : ℕ) : ℕ → List LC → Option (List (LC × MindMapNode))
  | _, [] => some []
  | j, item :: rest =>
    let la := leafAngle angle m j
    let pos := (x + 200 * cosF la, y + 200 * sinF la)
    (mkMindMapNode item NodeType.leaf i pos).bind (fun nd =>
      (leafEntries cosF sinF cat i angle x y m (j + 1) rest).map
        (fun es => (leafKey cat item, nd) :: es))

/-- The entries produced for one category: the category node followed by its
leaves. -/
def catEntries (cosF sinF : ℚ → ℚ) (n i : ℕ) (cat : LC) (v : CatValue) :
    Option (List (LC × MindMapNode)) :=
  let angle := categoryAngle n i
  let xy := categoryPos cosF sinF n i
  (mkMindMapNode cat NodeType.category i xy).bind (fun cnd =>
    (match v with
     | CatValue.items ls => leafEntries cosF sinF cat i angle xy.1 xy.2 ls.length 0 ls
     | CatValue.scalar sc =>
       (mkMindMapNode sc NodeType.leaf i
         (xy.1 + 200 * cosF angle, xy.2 + 200 * sinF angle)).map
         (fun nd => [(leafKey cat sc, nd)])).map
      (fun es => (cat, cnd) :: es))

/-- The entries produced by the whole category loop, starting at index `i`. -/
def allEntries (cosF sinF : ℚ → ℚ) (n : ℕ) : ℕ → List (LC × CatValue) →
    Option (List (LC × MindMapNode))
  | _, [] => some []
  | i, (cat, v) :: rest =>
    (catEntries cosF sinF n i cat v).bind (fun es =>
      (allEntries cosF sinF n (i + 1) rest).map (fun es' => es ++ es'))

/-- All entries of one `visualize_mindmap` call: the central node followed by
the category loop's entries. -/
def sceneEntries (cosF sinF : ℚ → ℚ) (data : List (LC × CatValue))
    (central : LC) : Option (List (LC × MindMapNode)) :=
  (mkMindMapNode central NodeType.central 0 (0, 0)).bind (fun cnd =>
    (allEntries cosF sinF data.length 0 data).map
      (fun es => (central, cnd) :: es))

/-- The node keys a category contributes below itself. -/
def keysOfValue (cat : LC) : CatValue → List LC
  | CatValue.items ls => ls.map (leafKey cat)
  | CatValue.scalar sc => [leafKey cat sc]

/-- All node keys of one `visualize_mindmap` call, in insertion order. -/
def sceneKeys (data : List (LC × CatValue)) (central : LC) : List LC :=
  central :: data.flatMap (fun p => p.1 :: keysOfValue p.1 p.2)

/-- The leaf labels of a category value: the list itself, or the scalar's
string representation (the code makes one leaf from it). -/
def itemsOf : CatValue → List LC
  | CatValue.items ls => ls
  | CatValue.scalar sc => [sc]

/-! # Theorems

## The wrapper never emits a line longer than the width

`_wrap_chunks` with `break_long_words=True` keeps every emitted line within
`width` characters (for `width ≥ 1`) — over-long words are broken at the
budget, not placed on their own line.  The bound is proved for an arbitrary
chunk list, so it does not depend on how `wordsep_re` splits words.
-/

theorem joinChunks_cons (c : LC) (cs : List LC) :
    joinChunks (c :: cs) = c ++ joinChunks cs := rfl

theorem joinChunks_length (l : List LC) :
    (joinChunks l).length = (l.map List.length).sum := by
  induction l with
  | nil => rfl
  | cons c cs ih => simp [joinChunks_cons, ih]

theorem takeGreedy_spec (width : ℕ) :
    ∀ (cs : List LC) (acc : ℕ), acc ≤ width →
      acc + (((takeGreedy width acc cs).1).map List.length).sum ≤ width ∧
      (takeGreedy width acc cs).2.1 =
        acc + (((takeGreedy width acc cs).1).map List.length).sum := by
  intro cs
  induction cs with
  | nil => intro acc h; simpa [takeGreedy] using h
  | cons c cs ih =>
    intro acc h
    by_cases hfit : acc + c.length ≤ width
    · have h' := ih (acc + c.length) hfit
      simp only [takeGreedy, if_pos hfit, List.map_cons, List.sum_cons]
      constructor
      · omega
      · omega
    · simp [takeGreedy, if_neg hfit, h]

theorem rfindChar_succ_le (c : Char) (l : LC) (k : ℕ)
    (h : rfindChar c l = some k) : k + 1 ≤ l.length := by
  cases l with
  | nil => simp [rfindChar] at h
  | cons a as =>
    unfold rfindChar at h
    cases hf : ((a :: as).reverse.findIdx? (fun x => decide (x = c))) with
    | none => rw [hf] at h; simp at h
    | some j =>
      rw [hf] at h
      simp only [Option.map, Option.some.injEq, List.length_cons] at h
      simp only [List.length_cons]
      omega

theorem dropTrailingWsChunk_sum_le (l : List LC) :
    ((dropTrailingWsChunk l).map List.length).sum ≤ (l.map List.length).sum := by
  unfold dropTrailingWsChunk
  cases h : l.getLast? with
  | none => simp
  | some last =>
    by_cases hws : isWsChunk last = true
    · simp only [hws, if_true]
      have hsub : l.dropLast.Sublist l := List.dropLast_sublist l
      exact List.Sublist.sum_le_sum (hsub.map List.length) (by intro x _; omega)
    · simp [hws]

theorem handle_long_word_fst_le (width curLen : ℕ) (chunk : LC) (hw : 1 ≤ width) :
    (handle_long_word width curLen chunk).1.length ≤ width - curLen := by
  unfold handle_long_word
  have hnlt : ¬ width < 1 := by omega
  simp only [hnlt, if_false]
  set spaceLeft := width - curLen with hsl
  have hend : ∀ e : ℕ, e ≤ spaceLeft → (chunk.take e).length ≤ width - curLen := by
    intro e he
    calc (chunk.take e).length ≤ e := by simp [List.length_take]
    _ ≤ width - curLen := by omega
  by_cases hlen : chunk.length > spaceLeft
  · simp only [hlen, if_true]
    cases hrf : rfindChar '-' (chunk.take spaceLeft) with
    | none => exact hend spaceLeft (le_refl _)
    | some h =>
      have hb := rfindChar_succ_le _ _ _ hrf
      have hb' : h + 1 ≤ spaceLeft := by
        calc h + 1 ≤ (chunk.take spaceLeft).length := hb
        _ ≤ spaceLeft := by simp [List.length_take]
      by_cases hcond : 0 < h ∧ (chunk.take h).any (fun x => decide (x ≠ '-')) = true
      · simp only [hcond, and_self, if_true]
        exact hend (h + 1) hb'
      · simp only [if_neg hcond]
        exact hend spaceLeft (le_refl _)
  · simp only [hlen, if_false]
    exact hend spaceLeft (le_refl _)

theorem wrapStep_fst_sum_le (width : ℕ) (hw : 1 ≤ width) (chunks : List LC) :
    (((wrapStep width chunks).1).map List.length).sum ≤ width := by
  unfold wrapStep
  have spec := takeGreedy_spec width chunks 0 (by omega)
  refine le_trans (dropTrailingWsChunk_sum_le _) ?_
  cases hr : (takeGreedy width 0 chunks).2.2 with
  | nil => simpa using spec.1
  | cons c cs =>
    by_cases hc : c.length > width
    · simp only [hr, hc, if_true, List.map_append, List.sum_append,
        List.map_cons, List.sum_cons, List.map_nil, List.sum_nil]
      have hh := handle_long_word_fst_le width (takeGreedy width 0 chunks).2.1 c hw
      have h1 := spec.1
      have h2 := spec.2
      omega
    · simp only [hr, hc, if_false]
      simpa using spec.1

theorem wrapChunksAux_line_le (width : ℕ) (hw : 1 ≤ width) :
    ∀ (fuel : ℕ) (hasLines : Bool) (chunks : List LC) (line : LC),
      line ∈ wrapChunksAux width fuel hasLines chunks → line.length ≤ width := by
  intro fuel
  induction fuel with
  | zero => intro _ _ _ h; simp [wrapChunksAux] at h
  | succ n ih =>
    intro hasLines chunks₀ line h
    have hstep : ∀ (ch : List LC) (hL : Bool), ch ≠ [] →
        line ∈ (match (wrapStep width ch).1 with
                | [] => wrapChunksAux width n hL (wrapStep width ch).2
                | _ :: _ => joinChunks (wrapStep width ch).1 ::
                    wrapChunksAux width n true (wrapStep width ch).2) →
        line.length ≤ width := by
      intro ch hL _ hmem
      cases hst : (wrapStep width ch).1 with
      | nil => rw [hst] at hmem; exact ih _ _ _ hmem
      | cons a as =>
        rw [hst] at hmem
        rcases List.mem_cons.mp hmem with heq | hmem'
        · subst heq
          rw [joinChunks_length, ← hst]
          exact wrapStep_fst_sum_le width hw ch
        · exact ih _ _ _ hmem'
    cases chunks₀ with
    | nil => simp [wrapChunksAux] at h
    | cons c cs =>
      simp only [wrapChunksAux] at h
      by_cases hd : (hasLines && isWsChunk c) = true
      · rw [if_pos hd] at h
        cases cs with
        | nil => simp at h
        | cons c' cs' => exact hstep (c' :: cs') hasLines (by simp) h
      · rw [if_neg hd] at h
        exact hstep (c :: cs) hasLines (by simp) h

/-- Claim C2, counterexample:  The claim "never splits a word: … an over-long
word occupies its own line unshortened" is false: `textwrap.fill` defaults to
`break_long_words=True`, so for the label `"abcdefghij"` and budget 5 the
sole word is longer than the budget yet the wrapper yields the two lines
`"abcde"` and `"fghij"` — the word is broken, and no line equals it. -/
theorem C2_counterexample :
    wordsOf "abcdefghij".data = ["abcdefghij".data] ∧
    5 < ("abcdefghij".data).length ∧
    textwrap_wrap "abcdefghij".data 5 = ["abcde".data, "fghij".data] ∧
    "abcdefghij".data ∉ textwrap_wrap "abcdefghij".data 5 := by
  refine ⟨by decide, by decide, by decide, by decide⟩

/-- Claim C2, amended:  `wrap(label, w)` performs greedy word-wrap at
whitespace boundaries and, for every positive budget `w`, never produces a
line longer than `w` characters — with no exception for long words: a word
longer than `w` is broken at the budget (`break_long_words=True`) instead of
occupying its own line unshortened. -/
theorem C2_wrap_line_within_width (text : LC) (w : ℕ) (line : LC)
    (hw : 1 ≤ w) (hline : line ∈ textwrap_wrap text w) : line.length ≤ w :=
  wrapChunksAux_line_le w hw _ _ _ _ hline

/-- Witness for `C2_wrap_line_within_width` at `text = "hello world"`,
`w = 5`, `line = "hello"`. -/
theorem C2_wrap_line_within_width_witness : ("hello".data).length ≤ 5 :=
  C2_wrap_line_within_width "hello world".data 5 "hello".data (by decide) (by decide)

/-- Claim C1, counterexample:  The extractor does not fall back when the
fenced block's contents are unparsable: on this input, the fenced block
matches with contents `not json`, which `json.loads` rejects, while the
brace span `\x7b"a": 1\x7d` would parse — yet the extractor returns `None`
instead of falling back to the brace span. -/
theorem C1_counterexample :
    fencedBlock "```json\nnot json\n```\nignore \x7b\"a\": 1\x7d end".data
      = some "not json".data ∧
    json_loads "not json".data = none ∧
    braceSpan "```json\nnot json\n```\nignore \x7b\"a\": 1\x7d end".data
      = some "\x7b\"a\": 1\x7d".data ∧
    (json_loads "\x7b\"a\": 1\x7d".data).isSome = true ∧
    extract_json_from_response
      "```json\nnot json\n```\nignore \x7b\"a\": 1\x7d end".data = none := by
  exact ⟨by decide, rfl, by decide, rfl, rfl⟩

/-- Claim C1, amended:  The extractor tries its strategies in order with the
first *match* (not the first successful parse) winning: it parses exactly one
candidate — the fenced block's contents when a fenced block matches, else
the first-`\x7b`-to-last-`\x7d` brace span when present, else the whole raw
text — and returns that single parse's result, `none` on failure, with no
further fallback; no exception escapes (the function is total by
construction, `json.JSONDecodeError` being mapped to `none`). -/
theorem C1_first_match_wins (t c b : LC) :
    (fencedBlock t = some c → extract_json_from_response t = json_loads c) ∧
    (fencedBlock t = none → braceSpan t = some b →
      extract_json_from_response t = json_loads b) ∧
    (fencedBlock t = none → braceSpan t = none →
      extract_json_from_response t = json_loads t) := by
  refine ⟨fun h => ?_, fun h h2 => ?_, fun h h2 => ?_⟩
  · simp [extract_json_from_response, h]
  · simp [extract_json_from_response, h, h2]
  · simp [extract_json_from_response, h, h2]

/-- Witness for `C1_first_match_wins`: a fenced block whose contents parse. -/
theorem C1_first_match_wins_witness :
    extract_json_from_response "```json 7 ```".data = json_loads "7".data :=
  (C1_first_match_wins "```json 7 ```".data "7".data []).1 (by decide)

/-- Claim C4, counterexample:  A text with no `\x7b` and no `\x7d` need not
yield the failure value: on input `123` no fenced block and no brace span
match, so the whole text is parsed — and `123` is valid JSON, so the
extractor returns a parsed value, not `None`. -/
theorem C4_counterexample :
    '\x7b' ∉ "123".data ∧ '\x7d' ∉ "123".data ∧
    (extract_json_from_response "123".data).isSome = true := by
  exact ⟨by decide, by decide, rfl⟩

/-- Claim C4, amended:  On input text containing neither `\x7b` nor `\x7d`,
the brace-span strategy never matches, and extraction reduces to parsing the
fenced block's contents (when a fenced block is present) or the entire raw
text; it returns `None` exactly when that one candidate is not valid
JSON — not unconditionally. -/
theorem C4_no_braces_skips_brace_strategy (t : LC)
    (h1 : '\x7b' ∉ t) (h2 : '\x7d' ∉ t) :
    braceSpan t = none ∧
    extract_json_from_response t =
      (match fencedBlock t with
       | some c => json_loads c
       | none => json_loads t) := by
  have hidx : t.findIdx? (fun x => decide (x = '\x7b')) = none := by
    rw [List.findIdx?_eq_none_iff]
    intro x hx
    simp only [decide_eq_false_iff_not]
    intro hxe
    exact h1 (hxe ▸ hx)
  have hb : braceSpan t = none := by
    unfold braceSpan
    rw [hidx]
  refine ⟨hb, ?_⟩
  unfold extract_json_from_response
  rw [hb]

/-- Witness for `C4_no_braces_skips_brace_strategy` at `t = "abc"`. -/
theorem C4_no_braces_skips_brace_strategy_witness :
    braceSpan "abc".data = none ∧
    extract_json_from_response "abc".data =
      (match fencedBlock "abc".data with
       | some c => json_loads c
       | none => json_loads "abc".data) :=
  C4_no_braces_skips_brace_strategy "abc".data (by decide) (by decide)

/-! ## The scene built by `visualize_mindmap` is the entry-list normal form -/

theorem nodes_add_connection (s : MindMapScene) (a b : LC) :
    (add_connection s a b).nodes = s.nodes := by
  unfold add_connection; split <;> rfl

theorem insertAll_append (d : List (LC × MindMapNode))
    (es₁ es₂ : List (LC × MindMapNode)) :
    insertAll d (es₁ ++ es₂) = insertAll (insertAll d es₁) es₂ := by
  simp [insertAll, List.foldl_append]

theorem addLeafList_nodes (cosF sinF : ℚ → ℚ) (cat : LC) (i : ℕ)
    (angle x y : ℚ) (m : ℕ) :
    ∀ (items : List LC) (s : MindMapScene) (j : ℕ) (s' : MindMapScene),
      addLeafList cosF sinF cat i angle x y m s j items = some s' →
      ∃ es, leafEntries cosF sinF cat i angle x y m j items = some es ∧
        s'.nodes = insertAll s.nodes es := by
  intro items
  induction items with
  | nil =>
    intro s j s' h
    simp only [addLeafList, Option.some.injEq] at h
    exact ⟨[], rfl, by rw [← h]; rfl⟩
  | cons item rest ih =>
    intro s j s' h
    simp only [addLeafList, add_mindmap_node] at h
    cases hmk : mkMindMapNode item NodeType.leaf i
        (x + 200 * cosF (leafAngle angle m j), y + 200 * sinF (leafAngle angle m j)) with
    | none => rw [hmk] at h; simp at h
    | some nd =>
      rw [hmk] at h
      simp only [Option.map_some', Option.some_bind] at h
      obtain ⟨es', hes', hnodes'⟩ := ih _ _ _ h
      refine ⟨(leafKey cat item, nd) :: es', ?_, ?_⟩
      · simp only [leafEntries, hmk, Option.some_bind, hes', Option.map_some']
      · rw [hnodes', nodes_add_connection]
        rfl

theorem addCategory_nodes (cosF sinF : ℚ → ℚ) (n : ℕ) (central : LC)
    (s : MindMapScene) (i : ℕ) (cat : LC) (v : CatValue) (s' : MindMapScene)
    (h : addCategory cosF sinF n central s i cat v = some s') :
    ∃ es, catEntries cosF sinF n i cat v = some es ∧
      s'.nodes = insertAll s.nodes es := by
  cases v with
  | items ls =>
    simp only [addCategory, add_mindmap_node] at h
    cases hmk : mkMindMapNode cat NodeType.category i (categoryPos cosF sinF n i) with
    | none => rw [hmk] at h; simp at h
    | some cnd =>
      rw [hmk] at h
      simp only [Option.map_some', Option.some_bind] at h
      obtain ⟨es', hes', hnodes'⟩ := addLeafList_nodes cosF sinF cat i _ _ _ _ _ _ _ _ h
      refine ⟨(cat, cnd) :: es', ?_, ?_⟩
      · simp only [catEntries, hmk, Option.some_bind, hes', Option.map_some']
      · rw [hnodes', nodes_add_connection]
        rfl
  | scalar sc =>
    simp only [addCategory, add_mindmap_node] at h
    cases hmk : mkMindMapNode cat NodeType.category i (categoryPos cosF sinF n i) with
    | none => rw [hmk] at h; simp at h
    | some cnd =>
      rw [hmk] at h
      simp only [Option.map_some', Option.some_bind, Option.map_map] at h
      cases hmk2 : mkMindMapNode sc NodeType.leaf i
          ((categoryPos cosF sinF n i).1 + 200 * cosF (categoryAngle n i),
           (categoryPos cosF sinF n i).2 + 200 * sinF (categoryAngle n i)) with
      | none => rw [hmk2] at h; simp at h
      | some lnd =>
        rw [hmk2] at h
        simp only [Option.map_some', Function.comp, Option.some.injEq] at h
        refine ⟨(cat, cnd) :: [(leafKey cat sc, lnd)], ?_, ?_⟩
        · simp only [catEntries, hmk, Option.some_bind, hmk2, Option.map_some']
        · rw [← h, nodes_add_connection, nodes_add_connection]
          rfl

theorem addCategories_nodes (cosF sinF : ℚ → ℚ) (n : ℕ) (central : LC) :
    ∀ (data : List (LC × CatValue)) (s : MindMapScene) (i : ℕ)
      (s' : MindMapScene),
      addCategories cosF sinF n central s i data = some s' →
      ∃ es, allEntries cosF sinF n i data = some es ∧
        s'.nodes = insertAll s.nodes es := by
  intro data
  induction data with
  | nil =>
    intro s i s' h
    simp only [addCategories, Option.some.injEq] at h
    exact ⟨[], rfl, by rw [← h]; rfl⟩
  | cons p rest ih =>
    intro s i s' h
    obtain ⟨cat, v⟩ := p
    simp only [addCategories] at h
    cases hc : addCategory cosF sinF n central s i cat v with
    | none => rw [hc] at h; simp at h
    | some s₁ =>
      rw [hc] at h
      simp only [Option.some_bind] at h
      obtain ⟨es₁, hes₁, hn₁⟩ := addCategory_nodes cosF sinF n central s i cat v s₁ hc
      obtain ⟨es₂, hes₂, hn₂⟩ := ih s₁ (i + 1) s' h
      refine ⟨es₁ ++ es₂, ?_, ?_⟩
      · simp only [allEntries, hes₁, Option.some_bind, hes₂, Option.map_some']
      · rw [hn₂, hn₁, insertAll_append]

theorem visualize_mindmap_nodes (cosF sinF : ℚ → ℚ) (prior : MindMapScene)
    (data : List (LC × CatValue)) (central : LC) (s : MindMapScene)
    (h : visualize_mindmap cosF sinF prior data central = some s) :
    ∃ es, sceneEntries cosF sinF data central = some es ∧
      s.nodes = insertAll [] es := by
  unfold visualize_mindmap add_mindmap_node clear_mindmap at h
  cases hmk : mkMindMapNode central NodeType.central 0 (0, 0) with
  | none => rw [hmk] at h; simp at h
  | some cnd =>
    rw [hmk] at h
    simp only [Option.map_some', Option.some_bind] at h
    obtain ⟨es, hes, hn⟩ := addCategories_nodes cosF sinF data.length central data _ 0 s h
    refine ⟨(central, cnd) :: es, ?_, ?_⟩
    · simp only [sceneEntries, hmk, Option.some_bind, hes, Option.map_some']
    · rw [hn]
      rfl

/-! ## Keys of the entry lists, dictionary lemmas, node fields -/

theorem leafEntries_keys (cosF sinF : ℚ → ℚ) (cat : LC) (i : ℕ)
    (angle x y : ℚ) (m : ℕ) :
    ∀ (items : List LC) (j : ℕ) (es : List (LC × MindMapNode)),
      leafEntries cosF sinF cat i angle x y m j items = some es →
      es.map Prod.fst = items.map (leafKey cat) := by
  intro items
  induction items with
  | nil => intro j es h; simp only [leafEntries, Option.some.injEq] at h; simp [← h]
  | cons item rest ih =>
    intro j es h
    simp only [leafEntries] at h
    cases hmk : mkMindMapNode item NodeType.leaf i
        (x + 200 * cosF (leafAngle angle m j), y + 200 * sinF (leafAngle angle m j)) with
    | none => rw [hmk] at h; simp at h
    | some nd =>
      rw [hmk] at h
      simp only [Option.some_bind] at h
      cases hrest : leafEntries cosF sinF cat i angle x y m (j + 1) rest with
      | none => rw [hrest] at h; simp at h
      | some es' =>
        rw [hrest] at h
        simp only [Option.map_some', Option.some.injEq] at h
        rw [← h]
        simp [ih (j + 1) es' hrest]

theorem catEntries_keys (cosF sinF : ℚ → ℚ) (n i : ℕ) (cat : LC) (v : CatValue)
    (es : List (LC × MindMapNode))
    (h : catEntries cosF sinF n i cat v = some es) :
    es.map Prod.fst = cat :: keysOfValue cat v := by
  cases v with
  | items ls =>
    simp only [catEntries] at h
    cases hmk : mkMindMapNode cat NodeType.category i (categoryPos cosF sinF n i) with
    | none => rw [hmk] at h; simp at h
    | some cnd =>
      rw [hmk] at h
      simp only [Option.some_bind] at h
      cases hl : leafEntries cosF sinF cat i (categoryAngle n i)
          (categoryPos cosF sinF n i).1 (categoryPos cosF sinF n i).2 ls.length 0 ls with
      | none => rw [hl] at h; simp at h
      | some es' =>
        rw [hl] at h
        simp only [Option.map_some', Option.some.injEq] at h
        rw [← h]
        simp [keysOfValue, leafEntries_keys cosF sinF cat i _ _ _ _ ls 0 es' hl]
  | scalar sc =>
    simp only [catEntries] at h
    cases hmk : mkMindMapNode cat NodeType.category i (categoryPos cosF sinF n i) with
    | none => rw [hmk] at h; simp at h
    | some cnd =>
      rw [hmk] at h
      simp only [Option.some_bind] at h
      cases hmk2 : mkMindMapNode sc NodeType.leaf i
          ((categoryPos cosF sinF n i).1 + 200 * cosF (categoryAngle n i),
           (categoryPos cosF sinF n i).2 + 200 * sinF (categoryAngle n i)) with
      | none => rw [hmk2] at h; simp at h
      | some lnd =>
        rw [hmk2] at h
        simp only [Option.map_some', Option.some.injEq] at h
        rw [← h]
        simp [keysOfValue]

theorem allEntries_keys (cosF sinF : ℚ → ℚ) (n : ℕ) :
    ∀ (data : List (LC × CatValue)) (i : ℕ) (es : List (LC × MindMapNode)),
      allEntries cosF sinF n i data = some es →
      es.map Prod.fst = data.flatMap (fun p => p.1 :: keysOfValue p.1 p.2) := by
  intro data
  induction data with
  | nil => intro i es h; simp only [allEntries, Option.some.injEq] at h; simp [← h]
  | cons p rest ih =>
    intro i es h
    obtain ⟨cat, v⟩ := p
    simp only [allEntries] at h
    cases hc : catEntries cosF sinF n i cat v with
    | none => rw [hc] at h; simp at h
    | some es₁ =>
      rw [hc] at h
      simp only [Option.some_bind] at h
      cases hrest : allEntries cosF sinF n (i + 1) rest with
      | none => rw [hrest] at h; simp at h
      | some es₂ =>
        rw [hrest] at h
        simp only [Option.map_some', Option.some.injEq] at h
        rw [← h]
        simp only [List.map_append, List.flatMap_cons]
        rw [catEntries_keys cosF sinF n i cat v es₁ hc, ih (i + 1) es₂ hrest]

theorem sceneEntries_keys (cosF sinF : ℚ → ℚ) (data : List (LC × CatValue))
    (central : LC) (es : List (LC × MindMapNode))
    (h : sceneEntries cosF sinF data central = some es) :
    es.map Prod.fst = sceneKeys data central := by
  simp only [sceneEntries] at h
  cases hmk : mkMindMapNode central NodeType.central 0 (0, 0) with
  | none => rw [hmk] at h; simp at h
  | some cnd =>
    rw [hmk] at h
    simp only [Option.some_bind] at h
    cases ha : allEntries cosF sinF data.length 0 data with
    | none => rw [ha] at h; simp at h
    | some es' =>
      rw [ha] at h
      simp only [Option.map_some', Option.some.injEq] at h
      rw [← h]
      simp only [List.map_cons, sceneKeys]
      rw [allEntries_keys cosF sinF data.length data 0 es' ha]

theorem any_key_eq (d : List (LC × MindMapNode)) (k : LC) :
    (d.any (fun p => decide (p.1 = k)) = true) ↔ k ∈ d.map Prod.fst := by
  simp [List.any_eq_true, List.mem_map]

theorem dictInsert_of_not_mem (d : List (LC × MindMapNode)) (k : LC)
    (v : MindMapNode) (h : k ∉ d.map Prod.fst) :
    dictInsert d k v = d ++ [(k, v)] := by
  unfold dictInsert
  rw [if_neg]
  intro hc
  exact h ((any_key_eq d k).mp hc)

theorem dictInsert_keys (d : List (LC × MindMapNode)) (k : LC)
    (v : MindMapNode) :
    (dictInsert d k v).map Prod.fst =
      if k ∈ d.map Prod.fst then d.map Prod.fst else d.map Prod.fst ++ [k] := by
  unfold dictInsert
  by_cases hmem : k ∈ d.map Prod.fst
  · rw [if_pos ((any_key_eq d k).mpr hmem), if_pos hmem, List.map_map]
    apply List.map_congr_left
    intro p _
    by_cases hp : p.1 = k
    · simp [hp]
    · simp [hp]
  · rw [if_neg (fun hc => hmem ((any_key_eq d k).mp hc)), if_neg hmem]
    simp

theorem insertAll_keys_mem (k' : LC) :
    ∀ (es : List (LC × MindMapNode)) (d : List (LC × MindMapNode)),
      (k' ∈ (insertAll d es).map Prod.fst ↔
        k' ∈ d.map Prod.fst ∨ k' ∈ es.map Prod.fst) := by
  intro es
  induction es with
  | nil => intro d; simp [insertAll]
  | cons p rest ih =>
    intro d
    obtain ⟨k, v⟩ := p
    have hstep : insertAll d ((k, v) :: rest) = insertAll (dictInsert d k v) rest := rfl
    rw [hstep, ih]
    rw [dictInsert_keys]
    by_cases hmem : k ∈ d.map Prod.fst
    · rw [if_pos hmem]
      simp only [List.map_cons, List.mem_cons]
      constructor
      · rintro (h | h)
        · exact Or.inl h
        · exact Or.inr (Or.inr h)
      · rintro (h | h | h)
        · exact Or.inl h
        · exact Or.inl (h ▸ hmem)
        · exact Or.inr h
    · rw [if_neg hmem]
      simp only [List.mem_append, List.mem_singleton, List.map_cons, List.mem_cons]
      tauto

theorem insertAll_of_nodup :
    ∀ (es : List (LC × MindMapNode)) (d : List (LC × MindMapNode)),
      (d.map Prod.fst ++ es.map Prod.fst).Nodup →
      insertAll d es = d ++ es := by
  intro es
  induction es with
  | nil => intro d _; simp [insertAll]
  | cons p rest ih =>
    intro d hnd
    obtain ⟨k, v⟩ := p
    have hk : k ∉ d.map Prod.fst := by
      rcases List.nodup_append.mp hnd with ⟨_, _, hdisj⟩
      intro hc
      exact hdisj hc (by simp)
    have hstep : insertAll d ((k, v) :: rest) = insertAll (dictInsert d k v) rest := rfl
    rw [hstep, dictInsert_of_not_mem d k v hk, ih (d ++ [(k, v)])]
    · simp
    · simpa [List.append_assoc] using hnd

theorem find_entry (l : List (LC × MindMapNode)) (k : LC) (v : MindMapNode)
    (hnd : (l.map Prod.fst).Nodup) (hmem : (k, v) ∈ l) :
    l.find? (fun p => decide (p.1 = k)) = some (k, v) := by
  induction l with
  | nil => simp at hmem
  | cons p ps ih =>
    rcases List.mem_cons.mp hmem with heq | hmem'
    · rw [← heq]
      simp
    · have hne : p.1 ≠ k := by
        intro hpk
        have : k ∈ ps.map Prod.fst :=
          List.mem_map.mpr ⟨(k, v), hmem', rfl⟩
        rw [List.map_cons, List.nodup_cons] at hnd
        exact hnd.1 (hpk ▸ this)
      rw [List.find?_cons_of_neg _ (by simp [hne])]
      exact ih (by rw [List.map_cons, List.nodup_cons] at hnd; exact hnd.2) hmem'

theorem findNode_isSome_iff (s : MindMapScene) (k : LC) :
    (findNode s k).isSome = true ↔ k ∈ s.nodes.map Prod.fst := by
  unfold findNode
  rw [Option.isSome_map']
  rw [List.find?_isSome]
  simp [List.mem_map]

theorem mkMindMapNode_category_fields (t : LC) (ci : ℕ) (pos : ℚ × ℚ)
    (nd : MindMapNode) (h : mkMindMapNode t NodeType.category ci pos = some nd) :
    nd.pos = pos ∧ nd.color_index = ci ∧ nd.text = t := by
  unfold mkMindMapNode at h
  cases hc : colors[ci]? with
  | none => rw [hc] at h; simp at h
  | some col =>
    rw [hc] at h
    simp only [Option.map_some', Option.some.injEq] at h
    rw [← h]
    exact ⟨rfl, rfl, rfl⟩

theorem mkMindMapNode_leaf_fields (t : LC) (ci : ℕ) (pos : ℚ × ℚ)
    (nd : MindMapNode) (h : mkMindMapNode t NodeType.leaf ci pos = some nd) :
    nd.pos = pos ∧ nd.color_index = ci ∧ nd.text = t := by
  unfold mkMindMapNode at h
  cases hc : colors[ci]? with
  | none => rw [hc] at h; simp at h
  | some col =>
    rw [hc] at h
    simp only [Option.map_some', Option.some.injEq] at h
    rw [← h]
    exact ⟨rfl, rfl, rfl⟩

/-! ## Locating a category's entries inside the scene -/

theorem allEntries_get (cosF sinF : ℚ → ℚ) (n : ℕ) :
    ∀ (data : List (LC × CatValue)) (i : ℕ) (es : List (LC × MindMapNode)),
      allEntries cosF sinF n i data = some es →
      ∀ (j : ℕ) (hj : j < data.length),
        ∃ ces, catEntries cosF sinF n (i + j) (data.get ⟨j, hj⟩).1
            (data.get ⟨j, hj⟩).2 = some ces ∧
          ∀ e ∈ ces, e ∈ es := by
  intro data
  induction data with
  | nil => intro i es _ j hj; exact absurd hj (by simp)
  | cons p rest ih =>
    intro i es h j hj
    obtain ⟨cat, v⟩ := p
    simp only [allEntries] at h
    cases hc : catEntries cosF sinF n i cat v with
    | none => rw [hc] at h; simp at h
    | some es₁ =>
      rw [hc] at h
      simp only [Option.some_bind] at h
      cases hrest : allEntries cosF sinF n (i + 1) rest with
      | none => rw [hrest] at h; simp at h
      | some es₂ =>
        rw [hrest] at h
        simp only [Option.map_some', Option.some.injEq] at h
        cases j with
        | zero =>
          refine ⟨es₁, ?_, ?_⟩
          · simpa using hc
          · intro e he
            rw [← h]
            exact List.mem_append_left _ he
        | succ j' =>
          have hj' : j' < rest.length := by simpa using Nat.lt_of_succ_lt_succ hj
          obtain ⟨ces, hces, hsub⟩ := ih (i + 1) es₂ hrest j' hj'
          refine ⟨ces, ?_, ?_⟩
          · have harith : i + 1 + j' = i + (j' + 1) := by omega
            rw [harith] at hces
            exact hces
          · intro e he
            rw [← h]
            exact List.mem_append_right _ (hsub e he)

theorem catEntries_cons (cosF sinF : ℚ → ℚ) (n i : ℕ) (cat : LC) (v : CatValue)
    (es : List (LC × MindMapNode)) (h : catEntries cosF sinF n i cat v = some es) :
    ∃ cnd rest, es = (cat, cnd) :: rest ∧
      mkMindMapNode cat NodeType.category i (categoryPos cosF sinF n i) = some cnd := by
  simp only [catEntries] at h
  cases hmk : mkMindMapNode cat NodeType.category i (categoryPos cosF sinF n i) with
  | none => rw [hmk] at h; simp at h
  | some cnd =>
    rw [hmk] at h
    simp only [Option.some_bind] at h
    cases hrest : (match v with
      | CatValue.items ls =>
        leafEntries cosF sinF cat i (categoryAngle n i) (categoryPos cosF sinF n i).1
          (categoryPos cosF sinF n i).2 ls.length 0 ls
      | CatValue.scalar sc =>
        Option.map (fun nd => [(leafKey cat sc, nd)])
          (mkMindMapNode sc NodeType.leaf i
            ((categoryPos cosF sinF n i).1 + 200 * cosF (categoryAngle n i),
             (categoryPos cosF sinF n i).2 + 200 * sinF (categoryAngle n i)))) with
    | none => rw [hrest] at h; simp at h
    | some tail =>
      rw [hrest] at h
      simp only [Option.map_some', Option.some.injEq] at h
      exact ⟨cnd, tail, h.symm, rfl⟩

theorem findNode_eq_of_mem (s : MindMapScene) (k : LC) (v : MindMapNode)
    (hnd : (s.nodes.map Prod.fst).Nodup) (hmem : (k, v) ∈ s.nodes) :
    findNode s k = some v := by
  unfold findNode
  rw [find_entry s.nodes k v hnd hmem]
  rfl

theorem visualize_structure (cosF sinF : ℚ → ℚ) (prior : MindMapScene)
    (data : List (LC × CatValue)) (central : LC) (s : MindMapScene)
    (hnd : (sceneKeys data central).Nodup)
    (hs : visualize_mindmap cosF sinF prior data central = some s) :
    ∃ cnd₀ es', allEntries cosF sinF data.length 0 data = some es' ∧
      s.nodes = (central, cnd₀) :: es' ∧
      (s.nodes.map Prod.fst).Nodup := by
  obtain ⟨es, hes, hn⟩ := visualize_mindmap_nodes cosF sinF prior data central s hs
  have hkeys := sceneEntries_keys cosF sinF data central es hes
  have heq : insertAll [] es = [] ++ es := by
    apply insertAll_of_nodup
    simpa [hkeys] using hnd
  rw [heq] at hn
  simp only [List.nil_append] at hn
  simp only [sceneEntries] at hes
  cases hmk : mkMindMapNode central NodeType.central 0 (0, 0) with
  | none => rw [hmk] at hes; simp at hes
  | some cnd₀ =>
    rw [hmk] at hes
    simp only [Option.some_bind] at hes
    cases ha : allEntries cosF sinF data.length 0 data with
    | none => rw [ha] at hes; simp at hes
    | some es' =>
      rw [ha] at hes
      simp only [Option.map_some', Option.some.injEq] at hes
      refine ⟨cnd₀, es', rfl, by rw [hn, ← hes], ?_⟩
      rw [hn, hkeys]
      exact hnd

/-- Claim C7:  For every category map with `n ≥ 1` categories (whose node keys
do not collide, as Python dict keys cannot), the `i`-th category node is
placed at angle `categoryAngle n i = 2·i/n` (in units of π, i.e. `2π·i/n`)
on the circle of radius 300 around the central node — its position in the
scene is exactly `categoryPos cosF sinF n i = (300·cos θ_i, 300·sin θ_i)` —
and the `n` angles are pairwise distinct mod 2π: the difference of two
distinct category angles is never an even multiple of π. -/
theorem C7_category_angles (cosF sinF : ℚ → ℚ) (prior : MindMapScene)
    (data : List (LC × CatValue)) (central : LC) (s : MindMapScene) (i : ℕ)
    (hi : i < data.length)
    (hnd : (sceneKeys data central).Nodup)
    (hs : visualize_mindmap cosF sinF prior data central = some s) :
    (findNode s (data.get ⟨i, hi⟩).1).map MindMapNode.pos =
      some (categoryPos cosF sinF data.length i) ∧
    ∀ j, j < data.length → j ≠ i →
      ∀ z : ℤ, categoryAngle data.length i - categoryAngle data.length j ≠ 2 * z := by
  constructor
  · obtain ⟨cnd₀, es', ha, hn, hnodup⟩ :=
      visualize_structure cosF sinF prior data central s hnd hs
    obtain ⟨ces, hces, hsub⟩ :=
      allEntries_get cosF sinF data.length data 0 es' ha i hi
    rw [Nat.zero_add] at hces
    obtain ⟨cnd, rest, hes, hmk⟩ :=
      catEntries_cons cosF sinF data.length i (data.get ⟨i, hi⟩).1
        (data.get ⟨i, hi⟩).2 ces hces
    have hmem : ((data.get ⟨i, hi⟩).1, cnd) ∈ s.nodes := by
      rw [hn]
      exact List.mem_cons_of_mem _ (hsub _ (hes ▸ List.mem_cons_self _ _))
    rw [findNode_eq_of_mem s _ cnd hnodup hmem]
    simp only [Option.map_some']
    rw [(mkMindMapNode_category_fields _ _ _ _ hmk).1]
  · intro j hj hji z heq
    have hn0 : (data.length : ℚ) ≠ 0 := Nat.cast_ne_zero.mpr (by omega)
    unfold categoryAngle at heq
    have hq : (i : ℚ) - (j : ℚ) = (z : ℚ) * (data.length : ℚ) := by
      field_simp at heq
      linarith
    have hz : (i : ℤ) - (j : ℤ) = z * (data.length : ℤ) := by
      exact_mod_cast hq
    have hiz : (i : ℤ) < (data.length : ℤ) := by exact_mod_cast hi
    have hjz : (j : ℤ) < (data.length : ℤ) := by exact_mod_cast hj
    have hjiz : (i : ℤ) ≠ (j : ℤ) := by
      intro hc
      exact hji (by exact_mod_cast hc.symm)
    have hzne : z ≠ 0 := by
      intro hz0
      rw [hz0, zero_mul, sub_eq_zero] at hz
      exact hjiz hz
    have habs : (1 : ℤ) ≤ |z| := Int.one_le_abs hzne
    have hlen0 : (0 : ℤ) ≤ (data.length : ℤ) := by positivity
    have hub : |(i : ℤ) - (j : ℤ)| < (data.length : ℤ) := by
      rw [abs_lt]
      constructor <;> omega
    rw [hz, abs_mul, abs_of_nonneg hlen0] at hub
    nlinarith

/-- Witness for `C7_category_angles`: a concrete two-category map with
central label `T`; category `B` (index 1 of 2) is placed at
`categoryPos _ _ 2 1`, and the two category angles do not differ by an even
multiple of π. -/
theorem C7_category_angles_witness :
    (findNode ((visualize_mindmap (fun _ => (0 : ℚ)) (fun _ => (0 : ℚ))
        (MindMapScene.mk [] [])
        [("A".data, CatValue.items []), ("B".data, CatValue.items [])]
        "T".data).get rfl) "B".data).map MindMapNode.pos =
      some (categoryPos (fun _ => (0 : ℚ)) (fun _ => (0 : ℚ)) 2 1) ∧
    categoryAngle 2 1 - categoryAngle 2 0 ≠ 2 * ((0 : ℤ) : ℚ) := by
  have h := C7_category_angles (fun _ => (0 : ℚ)) (fun _ => (0 : ℚ))
    (MindMapScene.mk [] [])
    [("A".data, CatValue.items []), ("B".data, CatValue.items [])]
    "T".data
    ((visualize_mindmap (fun _ => (0 : ℚ)) (fun _ => (0 : ℚ))
        (MindMapScene.mk [] [])
        [("A".data, CatValue.items []), ("B".data, CatValue.items [])]
        "T".data).get rfl)
    1 (by decide) (by decide) (Option.some_get (by rfl)).symm
  exact ⟨h.1, h.2 0 (by decide) (by decide) 0⟩

/-- Claim C6:  For every category with exactly one leaf — a one-element list or
a scalar value — the leaf's angle equals the category's angle
(`leafAngle θ 1 0 = θ`: the `m = 1` special case avoids the
divide-by-`(m-1)` formula entirely, so no division by zero occurs), and the
leaf node's position in the scene is the category's position plus the leaf
radius 200 times `(cos θ_i, sin θ_i)` — an offset from the category, not
from the origin. -/
theorem C6_single_leaf (cosF sinF : ℚ → ℚ) (prior : MindMapScene)
    (data : List (LC × CatValue)) (central : LC) (s : MindMapScene) (i : ℕ)
    (hi : i < data.length) (l : LC)
    (hv : (data.get ⟨i, hi⟩).2 = CatValue.items [l] ∨
      (data.get ⟨i, hi⟩).2 = CatValue.scalar l)
    (hnd : (sceneKeys data central).Nodup)
    (hs : visualize_mindmap cosF sinF prior data central = some s) :
    leafAngle (categoryAngle data.length i) 1 0 = categoryAngle data.length i ∧
    (findNode s (leafKey (data.get ⟨i, hi⟩).1 l)).map MindMapNode.pos =
      (findNode s (data.get ⟨i, hi⟩).1).map (fun nd =>
        (nd.pos.1 + 200 * cosF (categoryAngle data.length i),
         nd.pos.2 + 200 * sinF (categoryAngle data.length i))) ∧
    (findNode s (data.get ⟨i, hi⟩).1).isSome = true := by
  refine ⟨by simp [leafAngle], ?_⟩
  obtain ⟨cnd₀, es', ha, hn, hnodup⟩ :=
    visualize_structure cosF sinF prior data central s hnd hs
  obtain ⟨ces, hces, hsub⟩ :=
    allEntries_get cosF sinF data.length data 0 es' ha i hi
  rw [Nat.zero_add] at hces
  have hmem_of_ces : ∀ e ∈ ces, e ∈ s.nodes := by
    intro e he
    rw [hn]
    exact List.mem_cons_of_mem _ (hsub e he)
  rcases hv with hv | hv
  · rw [hv] at hces
    simp only [catEntries] at hces
    cases hmkc : mkMindMapNode (data.get ⟨i, hi⟩).1 NodeType.category i
        (categoryPos cosF sinF data.length i) with
    | none => rw [hmkc] at hces; simp at hces
    | some cnd =>
      rw [hmkc] at hces
      simp only [Option.some_bind, leafEntries] at hces
      cases hmkl : mkMindMapNode l NodeType.leaf i
          ((categoryPos cosF sinF data.length i).1 +
            200 * cosF (leafAngle (categoryAngle data.length i) 1 0),
           (categoryPos cosF sinF data.length i).2 +
            200 * sinF (leafAngle (categoryAngle data.length i) 1 0)) with
      | none => rw [List.length_cons, List.length_nil] at hces; rw [hmkl] at hces; simp at hces
      | some lnd =>
        rw [List.length_cons, List.length_nil] at hces
        rw [hmkl] at hces
        simp only [Option.some_bind, Option.map_some', Option.some.injEq] at hces
        have hcnd : ((data.get ⟨i, hi⟩).1, cnd) ∈ s.nodes :=
          hmem_of_ces _ (by rw [← hces]; exact List.mem_cons_self _ _)
        have hlnd : (leafKey (data.get ⟨i, hi⟩).1 l, lnd) ∈ s.nodes :=
          hmem_of_ces _ (by rw [← hces]; simp)
        rw [findNode_eq_of_mem s _ cnd hnodup hcnd,
          findNode_eq_of_mem s _ lnd hnodup hlnd]
        simp only [Option.map_some', Option.some.injEq, Option.isSome_some, and_true]
        rw [(mkMindMapNode_leaf_fields _ _ _ _ hmkl).1,
          (mkMindMapNode_category_fields _ _ _ _ hmkc).1]
        simp [leafAngle, categoryPos]
  · rw [hv] at hces
    simp only [catEntries] at hces
    cases hmkc : mkMindMapNode (data.get ⟨i, hi⟩).1 NodeType.category i
        (categoryPos cosF sinF data.length i) with
    | none => rw [hmkc] at hces; simp at hces
    | some cnd =>
      rw [hmkc] at hces
      simp only [Option.some_bind] at hces
      cases hmkl : mkMindMapNode l NodeType.leaf i
          ((categoryPos cosF sinF data.length i).1 +
            200 * cosF (categoryAngle data.length i),
           (categoryPos cosF sinF data.length i).2 +
            200 * sinF (categoryAngle data.length i)) with
      | none => rw [hmkl] at hces; simp at hces
      | some lnd =>
        rw [hmkl] at hces
        simp only [Option.map_some', Option.some.injEq] at hces
        have hcnd : ((data.get ⟨i, hi⟩).1, cnd) ∈ s.nodes :=
          hmem_of_ces _ (by rw [← hces]; exact List.mem_cons_self _ _)
        have hlnd : (leafKey (data.get ⟨i, hi⟩).1 l, lnd) ∈ s.nodes :=
          hmem_of_ces _ (by rw [← hces]; simp)
        rw [findNode_eq_of_mem s _ cnd hnodup hcnd,
          findNode_eq_of_mem s _ lnd hnodup hlnd]
        simp only [Option.map_some', Option.some.injEq, Option.isSome_some, and_true]
        rw [(mkMindMapNode_leaf_fields _ _ _ _ hmkl).1,
          (mkMindMapNode_category_fields _ _ _ _ hmkc).1]

/-- Witness for `C6_single_leaf`: one category `A` with the single leaf `x`
around central label `T`. -/
theorem C6_single_leaf_witness :
    leafAngle (categoryAngle 1 0) 1 0 = categoryAngle 1 0 ∧
    (findNode ((visualize_mindmap (fun _ => (0 : ℚ)) (fun _ => (0 : ℚ))
        (MindMapScene.mk [] []) [("A".data, CatValue.items ["x".data])]
        "T".data).get rfl) (leafKey "A".data "x".data)).map MindMapNode.pos =
      (findNode ((visualize_mindmap (fun _ => (0 : ℚ)) (fun _ => (0 : ℚ))
        (MindMapScene.mk [] []) [("A".data, CatValue.items ["x".data])]
        "T".data).get rfl) "A".data).map (fun nd =>
          (nd.pos.1 + 200 * 0, nd.pos.2 + 200 * 0)) ∧
    (findNode ((visualize_mindmap (fun _ => (0 : ℚ)) (fun _ => (0 : ℚ))
        (MindMapScene.mk [] []) [("A".data, CatValue.items ["x".data])]
        "T".data).get rfl) "A".data).isSome = true :=
  C6_single_leaf (fun _ => (0 : ℚ)) (fun _ => (0 : ℚ)) (MindMapScene.mk [] [])
    [("A".data, CatValue.items ["x".data])] "T".data
    ((visualize_mindmap (fun _ => (0 : ℚ)) (fun _ => (0 : ℚ))
        (MindMapScene.mk [] []) [("A".data, CatValue.items ["x".data])]
        "T".data).get rfl)
    0 (by decide) "x".data (Or.inl rfl) (by decide) (Option.some_get (by rfl)).symm

/-! ## Leaf keys are namespaced by their category -/

theorem leafKey_inj_of_no_underscore (c₁ : LC) :
    ∀ (c₂ l₁ l₂ : LC), '_' ∉ c₁ → '_' ∉ c₂ →
      leafKey c₁ l₁ = leafKey c₂ l₂ → c₁ = c₂ ∧ l₁ = l₂ := by
  induction c₁ with
  | nil =>
    intro c₂ l₁ l₂ _ h2 he
    cases c₂ with
    | nil => simpa [leafKey] using he
    | cons d ds =>
      simp only [leafKey, List.nil_append, List.cons_append, List.cons.injEq] at he
      exact absurd (he.1 ▸ List.mem_cons_self d ds) (he.1 ▸ h2)
  | cons a as ih =>
    intro c₂ l₁ l₂ h1 h2 he
    cases c₂ with
    | nil =>
      simp only [leafKey, List.nil_append, List.cons_append, List.cons.injEq] at he
      exact absurd (he.1 ▸ List.mem_cons_self a as) (fun hc => h1 (he.1 ▸ hc))
    | cons d ds =>
      simp only [leafKey, List.cons_append, List.cons.injEq] at he
      obtain ⟨had, htail⟩ := he
      have h1' : '_' ∉ as := fun hc => h1 (List.mem_cons_of_mem a hc)
      have h2' : '_' ∉ ds := fun hc => h2 (List.mem_cons_of_mem d hc)
      obtain ⟨hc, hl⟩ := ih ds l₁ l₂ h1' h2' htail
      exact ⟨by rw [had, hc], hl⟩

theorem key_mem_sceneKeys (data : List (LC × CatValue)) (central : LC)
    (c : LC) (v : CatValue) (l : LC)
    (hm : (c, v) ∈ data) (hl : l ∈ itemsOf v) :
    c ∈ sceneKeys data central ∧ leafKey c l ∈ sceneKeys data central := by
  constructor
  · unfold sceneKeys
    refine List.mem_cons_of_mem _ (List.mem_flatMap.mpr ⟨(c, v), hm, ?_⟩)
    exact List.mem_cons_self _ _
  · unfold sceneKeys
    refine List.mem_cons_of_mem _ (List.mem_flatMap.mpr ⟨(c, v), hm, ?_⟩)
    refine List.mem_cons_of_mem _ ?_
    cases v with
    | items ls => exact List.mem_map.mpr ⟨l, hl, rfl⟩
    | scalar sc =>
      simp only [itemsOf, List.mem_singleton] at hl
      simp [keysOfValue, hl]

theorem visualize_key_present (cosF sinF : ℚ → ℚ) (prior : MindMapScene)
    (data : List (LC × CatValue)) (central : LC) (s : MindMapScene) (k : LC)
    (hs : visualize_mindmap cosF sinF prior data central = some s)
    (hk : k ∈ sceneKeys data central) :
    (findNode s k).isSome = true := by
  obtain ⟨es, hes, hn⟩ := visualize_mindmap_nodes cosF sinF prior data central s hs
  have hkeys := sceneEntries_keys cosF sinF data central es hes
  rw [findNode_isSome_iff, hn]
  rw [insertAll_keys_mem]
  right
  rw [hkeys]
  exact hk

/-- Claim C10:  Leaf node keys are namespaced by their parent category:
`leafKey category label = category ++ "_" ++ label` (lines 546 and 554),
while category nodes are keyed by their bare label; consequently, for
category labels free of underscore collisions (no `'_'` in the category
labels), the same leaf text `l` under two different categories produces two
distinct node keys, both of which are present in the scene's node dictionary
as distinct entries, along with both bare-label category keys. -/
theorem C10_leaf_keys_namespaced (cosF sinF : ℚ → ℚ) (prior : MindMapScene)
    (data : List (LC × CatValue)) (central : LC) (s : MindMapScene)
    (c₁ c₂ : LC) (v₁ v₂ : CatValue) (l : LC)
    (hm₁ : (c₁, v₁) ∈ data) (hm₂ : (c₂, v₂) ∈ data)
    (hl₁ : l ∈ itemsOf v₁) (hl₂ : l ∈ itemsOf v₂)
    (hne : c₁ ≠ c₂) (hu₁ : '_' ∉ c₁) (hu₂ : '_' ∉ c₂)
    (hs : visualize_mindmap cosF sinF prior data central = some s) :
    leafKey c₁ l = c₁ ++ '_' :: l ∧
    leafKey c₁ l ≠ leafKey c₂ l ∧
    (findNode s (leafKey c₁ l)).isSome = true ∧
    (findNode s (leafKey c₂ l)).isSome = true ∧
    (findNode s c₁).isSome = true ∧
    (findNode s c₂).isSome = true := by
  obtain ⟨hc₁, hk₁⟩ := key_mem_sceneKeys data central c₁ v₁ l hm₁ hl₁
  obtain ⟨hc₂, hk₂⟩ := key_mem_sceneKeys data central c₂ v₂ l hm₂ hl₂
  refine ⟨rfl, ?_, ?_, ?_, ?_, ?_⟩
  · intro he
    exact hne (leafKey_inj_of_no_underscore c₁ c₂ l l hu₁ hu₂ he).1
  · exact visualize_key_present cosF sinF prior data central s _ hs hk₁
  · exact visualize_key_present cosF sinF prior data central s _ hs hk₂
  · exact visualize_key_present cosF sinF prior data central s _ hs hc₁
  · exact visualize_key_present cosF sinF prior data central s _ hs hc₂

/-- Witness for `C10_leaf_keys_namespaced`: the leaf text `x` under the two
categories `A` and `B`. -/
theorem C10_leaf_keys_namespaced_witness :
    leafKey "A".data "x".data = "A".data ++ '_' :: "x".data ∧
    leafKey "A".data "x".data ≠ leafKey "B".data "x".data ∧
    (findNode ((visualize_mindmap (fun _ => (0 : ℚ)) (fun _ => (0 : ℚ))
        (MindMapScene.mk [] [])
        [("A".data, CatValue.items ["x".data]),
         ("B".data, CatValue.items ["x".data])] "T".data).get rfl)
      (leafKey "A".data "x".data)).isSome = true ∧
    (findNode ((visualize_mindmap (fun _ => (0 : ℚ)) (fun _ => (0 : ℚ))
        (MindMapScene.mk [] [])
        [("A".data, CatValue.items ["x".data]),
         ("B".data, CatValue.items ["x".data])] "T".data).get rfl)
      (leafKey "B".data "x".data)).isSome = true ∧
    (findNode ((visualize_mindmap (fun _ => (0 : ℚ)) (fun _ => (0 : ℚ))
        (MindMapScene.mk [] [])
        [("A".data, CatValue.items ["x".data]),
         ("B".data, CatValue.items ["x".data])] "T".data).get rfl)
      "A".data).isSome = true ∧
    (findNode ((visualize_mindmap (fun _ => (0 : ℚ)) (fun _ => (0 : ℚ))
        (MindMapScene.mk [] [])
        [("A".data, CatValue.items ["x".data]),
         ("B".data, CatValue.items ["x".data])] "T".data).get rfl)
      "B".data).isSome = true :=
  C10_leaf_keys_namespaced (fun _ => (0 : ℚ)) (fun _ => (0 : ℚ))
    (MindMapScene.mk [] [])
    [("A".data, CatValue.items ["x".data]), ("B".data, CatValue.items ["x".data])]
    "T".data
    ((visualize_mindmap (fun _ => (0 : ℚ)) (fun _ => (0 : ℚ))
        (MindMapScene.mk [] [])
        [("A".data, CatValue.items ["x".data]),
         ("B".data, CatValue.items ["x".data])] "T".data).get rfl)
    "A".data "B".data (CatValue.items ["x".data]) (CatValue.items ["x".data])
    "x".data (by decide) (by decide) (by decide) (by decide)
    (by decide) (by decide) (by decide) (Option.some_get (by rfl)).symm

/-- Claim C5:  For every category with `m > 1` leaves, the leaf angles
computed by the layout (lines 536-539, `leafAngle` in units of π) are
symmetric about the category angle and span exactly the constant
`S = π/2.5` (i.e. `2/5` in units of π): the first leaf sits at
`θ − S/2 = θ − π/5`, the last at `θ + S/2 = θ + π/5`, the total span is
exactly `S`, and leaf `j` mirrors leaf `m−1−j` about `θ`. -/
theorem C5_leaf_span_symmetric (angle : ℚ) (m j : ℕ) (hm : 2 ≤ m)
    (hj : j ≤ m - 1) :
    leafAngle angle m (m - 1) - leafAngle angle m 0 = 2 / 5 ∧
    leafAngle angle m 0 = angle - 1 / 5 ∧
    leafAngle angle m (m - 1) = angle + 1 / 5 ∧
    leafAngle angle m j + leafAngle angle m (m - 1 - j) = 2 * angle := by
  have hm1 : m ≠ 1 := by omega
  have hcast : ((m - 1 : ℕ) : ℚ) = (m : ℚ) - 1 := by
    rw [Nat.cast_sub (by omega : 1 ≤ m)]
    norm_num
  have hcast2 : ((m - 1 - j : ℕ) : ℚ) = (m : ℚ) - 1 - (j : ℚ) := by
    rw [Nat.cast_sub hj, hcast]
  have hden : (m : ℚ) - 1 ≠ 0 := by
    have h2 : (2 : ℚ) ≤ (m : ℚ) := by exact_mod_cast hm
    intro hc
    linarith
  simp only [leafAngle, if_neg hm1, hcast, hcast2, Nat.cast_zero]
  refine ⟨?_, ?_, ?_, ?_⟩ <;> field_simp <;> ring

/-- Witness for `C5_leaf_span_symmetric` at `angle = 0`, `m = 3`, `j = 1`. -/
theorem C5_leaf_span_symmetric_witness :
    leafAngle 0 3 2 - leafAngle 0 3 0 = 2 / 5 ∧
    leafAngle 0 3 0 = 0 - 1 / 5 ∧
    leafAngle 0 3 2 = 0 + 1 / 5 ∧
    leafAngle 0 3 1 + leafAngle 0 3 1 = 2 * 0 :=
  C5_leaf_span_symmetric 0 3 1 (by norm_num) (by norm_num)

/-- Claim C3:  `visualize_mindmap` passes the raw index `i` — not
`i mod len(colors)` — to `MindMapNode`, whose `setup_node_properties` indexes
the fixed 8-entry palette with `self.colors[self.color_index]`.  With 9
categories the 9th lookup `colors[8]` raises `IndexError`, so the build
fails, while the same map truncated to 8 categories succeeds. -/
theorem C3_palette_overflow :
    visualize_mindmap (fun _ => 0) (fun _ => 0) (MindMapScene.mk [] [])
      [("a".data, CatValue.items []), ("b".data, CatValue.items []),
       ("c".data, CatValue.items []), ("d".data, CatValue.items []),
       ("e".data, CatValue.items []), ("f".data, CatValue.items []),
       ("g".data, CatValue.items []), ("h".data, CatValue.items []),
       ("i".data, CatValue.items [])] "w".data = none ∧
    (visualize_mindmap (fun _ => 0) (fun _ => 0) (MindMapScene.mk [] [])
      [("a".data, CatValue.items []), ("b".data, CatValue.items []),
       ("c".data, CatValue.items []), ("d".data, CatValue.items []),
       ("e".data, CatValue.items []), ("f".data, CatValue.items []),
       ("g".data, CatValue.items []), ("h".data, CatValue.items [])]
      "w".data).isSome = true := ⟨rfl, rfl⟩

/-- Claim C8:  For the empty category map, `visualize_mindmap` succeeds (a
valid terminal result, not an error): the scene holds exactly one node,
keyed by the central label and positioned at the origin `(0, 0)`, and no
connections. -/
theorem C8_empty_map (cosF sinF : ℚ → ℚ) (prior : MindMapScene) (central : LC) :
    (visualize_mindmap cosF sinF prior [] central).map
        (fun s => (s.nodes.map Prod.fst, s.connections)) = some ([central], []) ∧
    ((visualize_mindmap cosF sinF prior [] central).bind
        (fun s => findNode s central)).map MindMapNode.pos = some (0, 0) := by
  constructor
  · rfl
  · simp [visualize_mindmap, clear_mindmap, add_mindmap_node, mkMindMapNode,
      addCategories, dictInsert, findNode, List.find?]

/-- Claim C9:  The build-and-layout pipeline is a pure, deterministic function
of the category map and the central label: the scene it produces is
independent of whatever scene state existed before the call
(`clear_mindmap` resets it), so running `visualize_mindmap` twice on the
same input — in particular re-running it on the scene produced by the first
run — yields identical node keys, positions, box dimensions and
connections. -/
theorem C9_visualize_pure (cosF sinF : ℚ → ℚ) (p₁ p₂ : MindMapScene)
    (data : List (LC × CatValue)) (central : LC) :
    visualize_mindmap cosF sinF p₁ data central =
      visualize_mindmap cosF sinF p₂ data central := rfl
